import Mathlib

/-!
Verification development for the GitLogMCP server.

The definitions below are shallow embeddings of the program's security
layer (src/security.ts), the git-service commit-reference gate
(src/git-service.ts) and the two file-writing tool handlers of the MCP
server entry point.  Strings are modelled as Lean `String`s; the pure
character-level transforms of the source are translated to functions on
`List Char`.  Stateful code (the rate limiter, the handlers' effects)
is modelled by explicit state passing and effect records.
-/

namespace GitLogMCP

/-- The shell metacharacters removed by `sanitizeInput`'s first
substitution in src/security.ts line 82, given by their code points:
semicolon, ampersand, vertical bar, backtick, dollar, parentheses,
braces and square brackets. -/
def isShellMeta (c : Char) : Bool :=
  c.toNat == 59 || c.toNat == 38 || c.toNat == 124 || c.toNat == 96 ||
  c.toNat == 36 || c.toNat == 40 || c.toNat == 41 || c.toNat == 123 ||
  c.toNat == 125 || c.toNat == 91 || c.toNat == 93

/-- Whitespace characters removed by the JavaScript string trim used at
the end of `sanitizeInput` (space, tab, line feed, vertical tab, form
feed, carriage return, no-break space, byte order mark). -/
def isJsWhitespace (c : Char) : Bool :=
  c.toNat == 32 || c.toNat == 9 || c.toNat == 10 || c.toNat == 11 ||
  c.toNat == 12 || c.toNat == 13 || c.toNat == 160 || c.toNat == 65279

/-- The shell-metacharacter removal pass of `sanitizeInput`
(src/security.ts line 82): delete every shell metacharacter. -/
def stripMeta (s : String) : String :=
  String.mk (s.data.filter (fun c => !isShellMeta c))

/-- Global, left-to-right, non-overlapping removal of the two-character
sequence of two dots, as performed by the second substitution of
`sanitizeInput` (src/security.ts line 83). -/
def removeDotDot : List Char → List Char
  | [] => []
  | [c] => [c]
  | c1 :: c2 :: rest =>
    if c1 = '.' && c2 = '.' then removeDotDot rest
    else c1 :: removeDotDot (c2 :: rest)

/-- The traversal-sequence removal pass of `sanitizeInput` on strings. -/
def stripDotDot (s : String) : String :=
  String.mk (removeDotDot s.data)

/-- JavaScript string trim: drop leading and trailing whitespace. -/
def jsTrim (s : String) : String :=
  String.mk (((s.data.dropWhile isJsWhitespace).reverse.dropWhile isJsWhitespace).reverse)

/-- `sanitizeInput` from src/security.ts lines 77-85: remove shell
metacharacters, then remove occurrences of two consecutive dots, then
trim; the empty string maps to itself. -/
def sanitizeInput (s : String) : String :=
  if s.isEmpty then "" else jsTrim (stripDotDot (stripMeta s))

/-- Hexadecimal digit (either case), for the commit-hash pattern. -/
def isHexDigitChar (c : Char) : Bool :=
  (Nat.ble 48 c.toNat && Nat.ble c.toNat 57) ||
  (Nat.ble 97 c.toNat && Nat.ble c.toNat 102) ||
  (Nat.ble 65 c.toNat && Nat.ble c.toNat 70)

/-- Character class of GIT_REFERENCE_PATTERN in src/security.ts line 12:
letters, digits, dot, underscore, slash, hyphen. -/
def isGitRefChar (c : Char) : Bool :=
  c.isAlphanum || c == '.' || c == '_' || c == '/' || c == '-'

/-- The symbolic references accepted by `isValidCommitHash`. -/
def commonGitRefs : List String :=
  ["HEAD", "ORIG_HEAD", "FETCH_HEAD", "MERGE_HEAD"]

/-- `isValidCommitHash` from src/security.ts lines 19-41: accept the
fixed symbolic references, 7-40 character case-insensitive hex strings,
and reference-like tokens of at most 100 characters. -/
def isValidCommitHash (hash : String) : Bool :=
  if hash.data.isEmpty then false
  else if commonGitRefs.contains hash then true
  else if Nat.ble 7 hash.data.length && Nat.ble hash.data.length 40 &&
          hash.data.all isHexDigitChar then true
  else if Nat.ble hash.data.length 100 && hash.data.all isGitRefChar then true
  else false

/-- Character class of SAFE_FILENAME_PATTERN in src/security.ts line 13. -/
def isSafeFilenameChar (c : Char) : Bool :=
  c.isAlphanum || c == '.' || c == '_' || c == '-'

/-- Whether a character list contains two consecutive dots, modelling
the JavaScript substring test for the traversal sequence. -/
def hasDotDotSub : List Char → Bool
  | [] => false
  | [_] => false
  | c1 :: c2 :: rest => (c1 = '.' && c2 = '.') || hasDotDotSub (c2 :: rest)

/-- `isValidFilename` from src/security.ts lines 46-55: reject empty
strings, strings containing two consecutive dots, slashes or
backslashes, then require every character to be in the safe class. -/
def isValidFilename (filename : String) : Bool :=
  if filename.data.isEmpty then false
  else if hasDotDotSub filename.data || filename.data.contains '/' ||
          filename.data.contains '\\' then false
  else filename.data.all isSafeFilenameChar

/-- Split a character list into its slash-separated segments, dropping
empty segments (models the segmenting step of Node's posix path
normalization). -/
def splitSegs (l : List Char) : List (List Char) :=
  let step := fun (acc : List (List Char) × List Char) (c : Char) =>
    if c = '/' then
      (if acc.2.isEmpty then acc else (acc.2.reverse :: acc.1, ([] : List Char)))
    else (acc.1, c :: acc.2)
  let r := l.foldl step ([], [])
  (if r.2.isEmpty then r.1 else r.2.reverse :: r.1).reverse

/-- Segment normalization of Node's posix path resolution: a single-dot
segment is dropped; a double-dot segment pops the previous segment
(and is dropped at the root of an absolute path, kept at the front of
a relative path); other segments are pushed.  `acc` is the reversed
stack of output segments. -/
def normSegs (isAbs : Bool) (acc : List (List Char)) : List (List Char) → List (List Char)
  | [] => acc.reverse
  | seg :: rest =>
    if seg = ['.'] then normSegs isAbs acc rest
    else if seg = ['.', '.'] then
      match acc with
      | [] => if isAbs then normSegs isAbs [] rest else normSegs isAbs [seg] rest
      | top :: acctail =>
        if top = ['.', '.'] then normSegs isAbs (seg :: acc) rest
        else normSegs isAbs acctail rest
    else normSegs isAbs (seg :: acc) rest

/-- Rejoin normalized segments with slashes. -/
def joinSegs : List (List Char) → List Char
  | [] => []
  | [s] => s
  | s :: rest => s ++ '/' :: joinSegs rest

/-- Node `path.resolve(base)` for an absolute base path: split,
normalize and rejoin under the root. -/
def resolveBase (base : String) : String :=
  String.mk ('/' :: joinSegs (normSegs true [] (splitSegs base.data)))

/-- Node `path.resolve(base, input)` for an absolute base path: an
absolute input is resolved on its own, otherwise the input is appended
to the base before normalization. -/
def resolvePath (base input : String) : String :=
  if input.data.head? == some '/' then resolveBase input
  else String.mk ('/' :: joinSegs (normSegs true [] (splitSegs (base.data ++ '/' :: input.data))))

/-- `isValidPath` from src/security.ts lines 60-72: resolve the input
against the base and test whether the resolved base is a STRING prefix
of the resolved input (the source uses `String.prototype.startsWith`). -/
def isValidPath (inputPath basePath : String) : Bool :=
  if inputPath.data.isEmpty then false
  else (resolveBase basePath).data.isPrefixOf (resolvePath basePath inputPath).data

/-- Segment-wise containment: the resolved input equals the resolved
base or extends it below a path separator.  Modelled from the spec:
this is the check the specification describes for `isValidPath`
("segment-wise, not merely a string prefix"); the source has no such
check, so it is written from the spec's words for comparison. -/
def segmentWiseWithin (inputPath basePath : String) : Bool :=
  let rp := (resolvePath basePath inputPath).data
  let rb := (resolveBase basePath).data
  rp == rb || (rb ++ ['/']).isPrefixOf rp || rb == ['/']

/-- Node `path.join(a, b)`: concatenate with a separator, then
normalize (keeping the result relative when both inputs are). -/
def joinPath (a b : String) : String :=
  let raw := a.data ++ '/' :: b.data
  let isAbs := raw.head? == some '/'
  let segs := normSegs isAbs [] (splitSegs raw)
  if segs.isEmpty then (if isAbs then "/" else ".")
  else if isAbs then String.mk ('/' :: joinSegs segs)
  else String.mk (joinSegs segs)

/-- State of the `RateLimiter` class (src/security.ts lines 184-214):
the recorded admission timestamps in insertion order, the capacity and
the window duration in milliseconds.  Timestamps are integers, as
`Date.now()` values. -/
structure RateLimiter where
  calls : List Int
  maxCalls : Nat
  timeWindow : Int

/-- `RateLimiter.canMakeCall` at a given clock reading `now`: drop
every recorded timestamp `t` with `now - t >= timeWindow`, refuse when
the remaining count has reached `maxCalls` (recording nothing new),
otherwise append `now` and admit. -/
def canMakeCall (rl : RateLimiter) (now : Int) : Bool × RateLimiter :=
  let remaining := rl.calls.filter (fun t => now - t < rl.timeWindow)
  if rl.maxCalls ≤ remaining.length then (false, { rl with calls := remaining })
  else (true, { rl with calls := remaining ++ [now] })

/-- Minimum of a list of integers; the source computes it by
`Math.min(...this.calls)` on a list that is nonempty whenever the
minimum is reached (`calls.length >= maxCalls > 0`). -/
def minListInt : List Int → Int
  | [] => 0
  | [t] => t
  | t :: rest => min t (minListInt rest)

/-- `RateLimiter.getTimeUntilNextCall` at clock reading `now`; the
method reads the state and never modifies it, so the returned state is
the input state. -/
def getTimeUntilNextCall (rl : RateLimiter) (now : Int) : Int × RateLimiter :=
  if rl.calls.length < rl.maxCalls then (0, rl)
  else (max 0 (rl.timeWindow - (now - minListInt rl.calls)), rl)

/-- Run a sequence of `canMakeCall` invocations at the given clock
readings, collecting the returned booleans and threading the state. -/
def runCalls (rl : RateLimiter) : List Int → List Bool × RateLimiter
  | [] => ([], rl)
  | t :: ts =>
    let step := canMakeCall rl t
    let rest := runCalls step.2 ts
    (step.1 :: rest.1, rest.2)

/-- Outcome of a tool handler as seen through the dispatcher: either a
normal textual response or a caught error rendered as text. -/
inductive HandlerResult where
  | ok : HandlerResult
  | error : String → HandlerResult
deriving DecidableEq

/-- The configuration state of the server that the two summary-writing
handlers consult: the configured output directory and whether an
OpenRouter client was constructed at startup. -/
structure ServerConfig where
  outputDirectory : String
  configured : Bool

/-- Arguments of the analyze_commit tool.  `generateSummary` is false
when the argument is absent (undefined is falsy); `outputFile` is the
optional custom filename. -/
structure AnalyzeCommitArgs where
  commitHash : String
  generateSummary : Bool
  outputFile : Option String

/-- External effects performed by a run of `handleAnalyzeCommit`:
version-control fetches, completion-API calls, `ensureSafeDirectory`
invocations, and the paths of attempted report writes. -/
structure AnalyzeEffects where
  vcsCalls : Nat
  apiCalls : Nat
  ensureCalls : Nat
  writes : List String
deriving DecidableEq

/-- `AnalyzeCommitParamsSchema` (src/security.ts lines 132-142): the
commit hash must pass `isValidCommitHash` and a present, nonempty
output filename must pass `isValidFilename` (the refinement lets the
empty string through because the empty string is falsy). -/
def validAnalyzeParams (a : AnalyzeCommitArgs) : Bool :=
  isValidCommitHash a.commitHash &&
  (match a.outputFile with
   | none => true
   | some f => f.isEmpty || isValidFilename f)

/-- The validation message produced by the schema parse failure. -/
def analyzeValidationError (a : AnalyzeCommitArgs) : String :=
  if !isValidCommitHash a.commitHash then "Invalid commit hash format"
  else "Invalid output filename"

/-- The summary filename chosen by `handleAnalyzeCommit`:
`params.outputFile` when truthy, else the computed
commit-shortHash-timestamp default. -/
def analyzeFileName (o : Option String) (shortHash ts : String) : String :=
  match o with
  | some f => if f.isEmpty then "commit-" ++ shortHash ++ "-" ++ ts else f
  | none => "commit-" ++ shortHash ++ "-" ++ ts

/-- `handleAnalyzeCommit` in the server entry point: the dispatcher
first fails when no OpenRouter client is configured; the handler then
parses the arguments against `AnalyzeCommitParamsSchema`, fetches the
commit, calls the completion API, and, when `generateSummary` is set,
calls `ensureSafeDirectory` and writes the report.  The boolean result
of `ensureSafeDirectory` (`ensureOk`) is discarded by the source, so
the write is attempted regardless of it.  `shortHash` and `ts` stand
for the commit's shortened hash and the current timestamp rendering. -/
def handleAnalyzeCommit (cfg : ServerConfig) (a : AnalyzeCommitArgs)
    (shortHash ts : String) (ensureOk : Bool) : HandlerResult × AnalyzeEffects :=
  if !cfg.configured then
    (HandlerResult.error ("AI analysis not available"), ⟨0, 0, 0, []⟩)
  else if !validAnalyzeParams a then
    (HandlerResult.error (analyzeValidationError a), ⟨0, 0, 0, []⟩)
  else if a.generateSummary then
    (HandlerResult.ok,
      ⟨1, 1, 1, [joinPath cfg.outputDirectory (analyzeFileName a.outputFile shortHash ts ++ ".md")]⟩)
  else
    (HandlerResult.ok, ⟨1, 1, 0, []⟩)

/-- Arguments of the generate_project_summary tool.  The handler
destructures the raw argument bag with a default of 10 for
`commitCount` and performs no schema validation of its own. -/
structure SummaryArgs where
  commitCount : Option Nat
  outputFile : Option String

/-- External effects performed by a run of
`handleGenerateProjectSummary`: the limit passed to the log listing
(none when the listing is never reached), the number of per-commit
detail fetches, completion-API calls, `ensureSafeDirectory`
invocations, and the paths of attempted report writes. -/
structure SummaryEffects where
  logLimit : Option Nat
  detailFetches : Nat
  apiCalls : Nat
  ensureCalls : Nat
  writes : List String
deriving DecidableEq

/-- The summary filename chosen by `handleGenerateProjectSummary`:
`outputFile` when truthy (used verbatim, with no validation), else the
timestamped default. -/
def summaryFileName (o : Option String) (ts : String) : String :=
  match o with
  | some f => if f.isEmpty then "project-summary-" ++ ts else f
  | none => "project-summary-" ++ ts

/-- `handleGenerateProjectSummary` in the server entry point: the
dispatcher fails when no OpenRouter client is configured; the handler
destructures `commitCount` (default 10) with no cap of its own and
passes it as the log limit, where `GitLogParamsSchema` admits any
limit in [1, 1000]; it then fetches details for every listed commit
(`repoCommits` is the repository's commit count), calls the completion
API once, and always writes the report file (the guard in the source
is a disjunction with `true`), discarding the `ensureSafeDirectory`
result `ensureOk`. -/
def handleGenerateProjectSummary (cfg : ServerConfig) (args : SummaryArgs)
    (repoCommits : Nat) (ts : String) (ensureOk : Bool) : HandlerResult × SummaryEffects :=
  if !cfg.configured then
    (HandlerResult.error ("AI analysis not available"), ⟨none, 0, 0, 0, []⟩)
  else
    let commitCount := args.commitCount.getD 10
    if commitCount < 1 ∨ 1000 < commitCount then
      (HandlerResult.error ("Invalid git log parameters"), ⟨none, 0, 0, 0, []⟩)
    else
      let fetched := min commitCount repoCommits
      if fetched = 0 then
        (HandlerResult.error ("No commits found in repository"), ⟨some commitCount, 0, 0, 0, []⟩)
      else
        (HandlerResult.ok,
          ⟨some commitCount, fetched, 1, 1,
            [joinPath cfg.outputDirectory (summaryFileName args.outputFile ts ++ ".md")]⟩)

/-- Character class of the extra reference pattern accepted by
`GitService.getCommitInfo` (src/git-service.ts line 161): letters,
digits, underscore, hyphen, slash. -/
def isGciRefChar (c : Char) : Bool :=
  c.isAlphanum || c == '_' || c == '-' || c == '/'

/-- Whether a string matches that pattern (anchored, one or more
characters). -/
def matchesGciRefPattern (s : String) : Bool :=
  !s.data.isEmpty && s.data.all isGciRefChar

/-- The acceptance predicate of `GitService.getCommitInfo`
(src/git-service.ts lines 159-163): the invalid-format error is raised
exactly when the reference fails `isValidCommitHash`, is not the
literal HEAD, and does not match the permissive reference pattern. -/
def getCommitInfoAccepts (s : String) : Bool :=
  isValidCommitHash s || s == "HEAD" || matchesGciRefPattern s

/-- A reference-like token of 101 identical letters: longer than the
100-character bound of `isValidCommitHash` yet matching the permissive
pattern of `GitService.getCommitInfo`. -/
def longRefToken : String := String.mk (List.replicate 101 'a')

end GitLogMCP

namespace GitLogMCP


/-- An admission check that evicts nothing and has spare capacity
admits the call and appends the current time. -/
theorem canMakeCall_admits (rl : RateLimiter) (now : Int)
    (hkeep : ∀ t ∈ rl.calls, now - t < rl.timeWindow)
    (hlen : rl.calls.length < rl.maxCalls) :
    canMakeCall rl now = (true, { rl with calls := rl.calls ++ [now] }) := by
  have hf : rl.calls.filter (fun t => now - t < rl.timeWindow) = rl.calls :=
    List.filter_eq_self.mpr (fun a ha => decide_eq_true (hkeep a ha))
  simp only [canMakeCall, hf]
  rw [if_neg (by omega)]

/-- An admission check that evicts nothing and is at capacity refuses
the call and leaves the state unchanged. -/
theorem canMakeCall_reject (rl : RateLimiter) (now : Int)
    (hkeep : ∀ t ∈ rl.calls, now - t < rl.timeWindow)
    (hlen : rl.maxCalls ≤ rl.calls.length) :
    canMakeCall rl now = (false, rl) := by
  have hf : rl.calls.filter (fun t => now - t < rl.timeWindow) = rl.calls :=
    List.filter_eq_self.mpr (fun a ha => decide_eq_true (hkeep a ha))
  simp only [canMakeCall, hf]
  rw [if_pos (by omega)]

/-- Filtering out an actual member of a list shortens it. -/
theorem length_filter_lt_of_mem {α : Type} (p : α → Bool) (l : List α) (a : α)
    (ha : a ∈ l) (hpa : p a = false) : (l.filter p).length < l.length := by
  induction l with
  | nil => cases ha
  | cons b l ih =>
    rcases List.mem_cons.mp ha with rfl | h
    · have := List.length_filter_le p l
      simp [List.filter_cons, hpa]
      omega
    · by_cases hb : p b
      · have := ih h
        simp [List.filter_cons, hb]
        omega
      · have := ih h
        simp [List.filter_cons, hb]
        omega

/-- A run of admission checks, all mutually within one window, that
fits in the remaining capacity admits every call and records every
timestamp in order. -/
theorem runCalls_admits_all (N : Nat) (W : Int) (ts : List Int) :
    ∀ acc : List Int,
      acc.length + ts.length ≤ N →
      (∀ a ∈ acc, ∀ s ∈ ts, s - a < W) →
      ts.Pairwise (fun a b => b - a < W) →
      runCalls ⟨acc, N, W⟩ ts = (List.replicate ts.length true, ⟨acc ++ ts, N, W⟩) := by
  induction ts with
  | nil => intro acc _ _ _; simp [runCalls]
  | cons t ts ih =>
    intro acc hlen hacc hpair
    have h1 : ∀ a ∈ acc, t - a < W := fun a ha => hacc a ha t (List.mem_cons_self t ts)
    have h2 : acc.length < N := by
      simp only [List.length_cons] at hlen
      omega
    have hstep1 : canMakeCall ⟨acc, N, W⟩ t = (true, ⟨acc ++ [t], N, W⟩) :=
      canMakeCall_admits ⟨acc, N, W⟩ t h1 h2
    have hpair' := List.pairwise_cons.mp hpair
    have hrest : runCalls ⟨acc ++ [t], N, W⟩ ts =
        (List.replicate ts.length true, ⟨(acc ++ [t]) ++ ts, N, W⟩) := by
      apply ih
      · simp only [List.length_append, List.length_cons, List.length_nil] at hlen ⊢
        omega
      · intro a ha s hs
        rcases List.mem_append.mp ha with hmem | hmem
        · exact hacc a hmem s (List.mem_cons_of_mem t hs)
        · rw [List.mem_singleton.mp hmem]
          exact hpair'.1 s hs
      · exact hpair'.2
    simp only [runCalls, hstep1, hrest, List.replicate_succ, List.length_cons]
    simp [List.append_assoc]

/-- Claim C1: starting from an empty rate limiter with capacity `N` and
window `W`, a sequence of `N` admission checks whose clock readings all
lie within one window of each other returns true every time; a further
check still within the window of every recorded call returns false and
records nothing; and a check at least `W` after the first admitted call
returns true again. -/
theorem rateLimiter_window_admission
    (N : Nat) (W : Int) (hW : 0 < W)
    (ts : List Int) (hlen : ts.length = N)
    (hpair : ts.Pairwise (fun a b => b - a < W))
    (u : Int) (hu : ∀ t ∈ ts, u - t < W)
    (t0 : Int) (h0 : ts.head? = some t0)
    (v : Int) (hv : W ≤ v - t0) :
    (runCalls ⟨[], N, W⟩ ts).1 = List.replicate N true ∧
    (runCalls ⟨[], N, W⟩ ts).2.calls = ts ∧
    (canMakeCall (runCalls ⟨[], N, W⟩ ts).2 u).1 = false ∧
    (canMakeCall (runCalls ⟨[], N, W⟩ ts).2 u).2.calls = ts ∧
    (canMakeCall (canMakeCall (runCalls ⟨[], N, W⟩ ts).2 u).2 v).1 = true := by
  have hrun : runCalls ⟨[], N, W⟩ ts = (List.replicate ts.length true, ⟨ts, N, W⟩) := by
    have := runCalls_admits_all N W ts [] (by simp [hlen]) (by simp) hpair
    simpa using this
  have hreject : canMakeCall ⟨ts, N, W⟩ u = (false, (⟨ts, N, W⟩ : RateLimiter)) := by
    apply canMakeCall_reject
    · exact hu
    · simp [hlen]
  have ht0 : t0 ∈ ts := List.mem_of_mem_head? h0
  have hdrop : ((⟨ts, N, W⟩ : RateLimiter).calls.filter
      (fun t => v - t < W)).length < N := by
    have := length_filter_lt_of_mem (fun t => decide (v - t < W)) ts t0 ht0
      (decide_eq_false (by omega))
    simpa [hlen] using this
  have hthird : (canMakeCall (⟨ts, N, W⟩ : RateLimiter) v).1 = true := by
    simp only [canMakeCall]
    rw [if_neg (by simpa using Nat.not_le.mpr hdrop)]
  refine ⟨by simp [hrun, hlen], by simp [hrun], ?_, ?_, ?_⟩
  · simp [hrun, hreject]
  · simp [hrun, hreject]
  · simp only [hrun, hreject]
    exact hthird

/-- Claim C1 witness: capacity 2, window 10, calls at times 0 and 1
admitted, a third call at time 2 refused without recording, and a call
at time 10 admitted again. -/
theorem rateLimiter_window_admission_witness :
    (runCalls ⟨[], 2, 10⟩ [0, 1]).1 = List.replicate 2 true ∧
    (runCalls ⟨[], 2, 10⟩ [0, 1]).2.calls = [0, 1] ∧
    (canMakeCall (runCalls ⟨[], 2, 10⟩ [0, 1]).2 2).1 = false ∧
    (canMakeCall (runCalls ⟨[], 2, 10⟩ [0, 1]).2 2).2.calls = [0, 1] ∧
    (canMakeCall (canMakeCall (runCalls ⟨[], 2, 10⟩ [0, 1]).2 2).2 10).1 = true :=
  rateLimiter_window_admission 2 10 (by decide) [0, 1] rfl (by decide) 2 (by decide)
    0 rfl 10 (by decide)

/-- Claim C8: when the recorded list held at most `maxCalls` timestamps,
all in the past, an admission check leaves at most `maxCalls` retained
timestamps, every retained timestamp lies within the closed window
interval ending at the current reading, no retained timestamp is
window-expired, and `getTimeUntilNextCall` leaves the state unchanged. -/
theorem rateLimiter_invariant (rl : RateLimiter) (now : Int)
    (hlen : rl.calls.length ≤ rl.maxCalls)
    (hpast : ∀ t ∈ rl.calls, t ≤ now)
    (hW : 0 < rl.timeWindow) :
    (canMakeCall rl now).2.calls.length ≤ rl.maxCalls ∧
    (∀ t ∈ (canMakeCall rl now).2.calls, now - rl.timeWindow ≤ t ∧ t ≤ now) ∧
    (∀ t ∈ (canMakeCall rl now).2.calls, now - t < rl.timeWindow) ∧
    (getTimeUntilNextCall rl now).2 = rl := by
  have hmem : ∀ t ∈ (canMakeCall rl now).2.calls,
      (t ∈ rl.calls ∧ now - t < rl.timeWindow) ∨ t = now := by
    intro t ht
    simp only [canMakeCall] at ht
    split at ht
    · exact Or.inl (by simpa using List.mem_filter.mp ht)
    · rcases List.mem_append.mp ht with hf | hn
      · exact Or.inl (by simpa using List.mem_filter.mp hf)
      · exact Or.inr (List.mem_singleton.mp hn)
  have hlen' : (canMakeCall rl now).2.calls.length ≤ rl.maxCalls := by
    simp only [canMakeCall]
    split
    · exact le_trans (List.length_filter_le _ _) hlen
    · next h =>
      have := Nat.not_le.mp h
      simp only [List.length_append, List.length_cons, List.length_nil]
      omega
  refine ⟨hlen', ?_, ?_, ?_⟩
  · intro t ht
    rcases hmem t ht with ⟨hin, hwin⟩ | rfl
    · exact ⟨by omega, hpast t hin⟩
    · omega
  · intro t ht
    rcases hmem t ht with ⟨_, hwin⟩ | rfl
    · exact hwin
    · omega
  · simp only [getTimeUntilNextCall]
    split <;> rfl

/-- Claim C8 witness: a limiter holding one past timestamp with
capacity 2 and window 10, checked at time 6. -/
theorem rateLimiter_invariant_witness :
    ((canMakeCall ⟨[5], 2, 10⟩ 6).2.calls.length ≤ 2) ∧
    (∀ t ∈ (canMakeCall ⟨[5], 2, 10⟩ 6).2.calls, (6 : Int) - 10 ≤ t ∧ t ≤ 6) ∧
    (∀ t ∈ (canMakeCall ⟨[5], 2, 10⟩ 6).2.calls, (6 : Int) - t < 10) ∧
    (getTimeUntilNextCall ⟨[5], 2, 10⟩ 6).2 = ⟨[5], 2, 10⟩ :=
  rateLimiter_invariant ⟨[5], 2, 10⟩ 6 (by decide) (by decide) (by decide)

/-- Every character surviving the dot-dot removal pass came from the
input. -/
theorem removeDotDot_mem (l : List Char) (c : Char) (h : c ∈ removeDotDot l) : c ∈ l := by
  induction l using removeDotDot.induct with
  | case1 => simp [removeDotDot] at h
  | case2 d => simpa [removeDotDot] using h
  | case3 c1 c2 rest hdots ih =>
    rw [removeDotDot, if_pos hdots] at h
    exact List.mem_cons_of_mem c1 (List.mem_cons_of_mem c2 (ih h))
  | case4 c1 c2 rest hdots ih =>
    rw [removeDotDot, if_neg hdots] at h
    rcases List.mem_cons.mp h with rfl | h'
    · exact List.mem_cons_self _ _
    · exact List.mem_cons_of_mem c1 (ih h')

/-- The dot-dot removal pass is the identity on inputs without dots. -/
theorem removeDotDot_eq_self (l : List Char) (h : ∀ c ∈ l, c ≠ '.') :
    removeDotDot l = l := by
  induction l using removeDotDot.induct with
  | case1 => rfl
  | case2 d => rfl
  | case3 c1 c2 rest hdots ih =>
    have h1 : c1 = '.' := by
      have := (Bool.and_eq_true _ _).mp hdots
      exact of_decide_eq_true this.1
    exact absurd h1 (h c1 (List.mem_cons_self _ _))
  | case4 c1 c2 rest hdots ih =>
    rw [removeDotDot, if_neg hdots,
      ih (fun c hc => h c (List.mem_cons_of_mem c1 hc))]

/-- Claim C4 counterexample: the two removal passes of `sanitizeInput`
do not commute on every input; deleting the semicolon from a
dot-semicolon-dot string brings two dots together, which only the
metacharacters-first order then removes. -/
theorem strip_passes_do_not_commute :
    stripDotDot (stripMeta (".;.")) ≠ stripMeta (stripDotDot (".;.")) := by decide

/-- Claim C4 as amended: the two removal passes commute on every input
that contains no dot, and on every input that contains no shell
metacharacter; they do not commute in general. -/
theorem strip_passes_commute_on_disjoint_inputs (s : String)
    (h : (∀ c ∈ s.data, c ≠ '.') ∨ (∀ c ∈ s.data, isShellMeta c = false)) :
    stripDotDot (stripMeta s) = stripMeta (stripDotDot s) := by
  rcases h with h | h
  · have h1 : removeDotDot s.data = s.data := removeDotDot_eq_self _ h
    have h2 : removeDotDot (s.data.filter (fun c => !isShellMeta c)) =
        s.data.filter (fun c => !isShellMeta c) :=
      removeDotDot_eq_self _ (fun c hc => h c (List.mem_of_mem_filter hc))
    simp [stripMeta, stripDotDot, h1, h2]
  · have h1 : s.data.filter (fun c => !isShellMeta c) = s.data :=
      List.filter_eq_self.mpr (fun a ha => by simp [h a ha])
    have h2 : (removeDotDot s.data).filter (fun c => !isShellMeta c) = removeDotDot s.data :=
      List.filter_eq_self.mpr (fun a ha => by simp [h a (removeDotDot_mem _ _ ha)])
    simp [stripMeta, stripDotDot, h1, h2]

/-- Claim C4 witness: the passes agree on a dot-free input containing a
metacharacter and a slash. -/
theorem strip_passes_commute_on_disjoint_inputs_witness :
    stripDotDot (stripMeta ("a;b/c")) = stripMeta (stripDotDot ("a;b/c")) :=
  strip_passes_commute_on_disjoint_inputs ("a;b/c") (Or.inl (by decide))

/-- Claim C5 counterexample: sanitizing a double traversal path does
not give the slash-etc-passwd string the claim names: deleting the two
dot-dot tokens leaves both slashes in place. -/
theorem sanitizeInput_traversal_counterexample :
    sanitizeInput ("../../etc/passwd") ≠ "/etc/passwd" := by decide

/-- Claim C5 as amended: the metacharacter example sanitizes as the
claim states, and the traversal example sanitizes to the double-slash
string, the two dot-dot tokens removed and the resulting double slash
kept. -/
theorem sanitizeInput_concrete_values :
    sanitizeInput ("a;b|c$d") = "abcd" ∧
    sanitizeInput ("../../etc/passwd") = "//etc/passwd" := by decide

/-- Claim C2: `isValidPath` compares resolved paths with a string
prefix test, so the sibling directory whose name extends the base is
accepted even though it is not segment-wise within the base; the two
examples from the specification behave as stated. -/
theorem isValidPath_accepts_sibling_extension :
    isValidPath ("../base-evil") ("/base") = true ∧
    resolvePath ("/base") ("../base-evil") = "/base-evil" ∧
    segmentWiseWithin ("../base-evil") ("/base") = false ∧
    isValidPath ("../secret") ("/base/repo") = false ∧
    isValidPath ("sub/file.txt") ("/base/repo") = true := by decide

/-- Claim C3: both file-writing handlers discard the boolean returned
by `ensureSafeDirectory`; with the directory check failing (last
argument false) each handler still reports success and still attempts
its report write. -/
theorem handlers_write_despite_unsafe_directory :
    (handleAnalyzeCommit ⟨"./summaries", true⟩ ⟨"HEAD", true, none⟩ "abcd1234" "111" false).1
      = HandlerResult.ok ∧
    (handleAnalyzeCommit ⟨"./summaries", true⟩ ⟨"HEAD", true, none⟩ "abcd1234" "111" false).2.writes
      = [joinPath ("./summaries") ("commit-abcd1234-111" ++ ".md")] ∧
    (handleGenerateProjectSummary ⟨"./summaries", true⟩ ⟨some 5, none⟩ 10 "222" false).1
      = HandlerResult.ok ∧
    (handleGenerateProjectSummary ⟨"./summaries", true⟩ ⟨some 5, none⟩ 10 "222" false).2.writes
      = [joinPath ("./summaries") ("project-summary-222" ++ ".md")] := by decide

/-- Claim C6: the generate_project_summary handler caps nothing at 50;
a request for 51 commits on a repository with 60 commits passes 51 as
the log limit and performs 51 per-commit detail fetches, while an
absent commitCount defaults to 10. -/
theorem projectSummary_commitCount_uncapped :
    (handleGenerateProjectSummary ⟨"./summaries", true⟩ ⟨some 51, none⟩ 60 "t" true).1
      = HandlerResult.ok ∧
    (handleGenerateProjectSummary ⟨"./summaries", true⟩ ⟨some 51, none⟩ 60 "t" true).2.logLimit
      = some 51 ∧
    (handleGenerateProjectSummary ⟨"./summaries", true⟩ ⟨some 51, none⟩ 60 "t" true).2.detailFetches
      = 51 ∧
    (handleGenerateProjectSummary ⟨"./summaries", true⟩ ⟨none, none⟩ 60 "t" true).2.logLimit
      = some 10 ∧
    ¬(51 ≤ 50) := by decide

/-- Claim C7: with a completion client configured, an analyze_commit
request whose commit reference fails validation is answered by the
validation error, with no version-control fetch, no completion-API
call and no write. -/
theorem analyzeCommit_invalid_hash_rejected_without_backend
    (cfg : ServerConfig) (a : AnalyzeCommitArgs) (shortHash ts : String) (e : Bool)
    (hcfg : cfg.configured = true)
    (hbad : isValidCommitHash a.commitHash = false) :
    (handleAnalyzeCommit cfg a shortHash ts e).1
      = HandlerResult.error ("Invalid commit hash format") ∧
    (handleAnalyzeCommit cfg a shortHash ts e).2 = ⟨0, 0, 0, []⟩ := by
  have hval : validAnalyzeParams a = false := by
    simp [validAnalyzeParams, hbad]
  simp [handleAnalyzeCommit, hcfg, hval, analyzeValidationError, hbad]

/-- Claim C7 witness: the request with commit reference not-a-hash
followed by an exclamation mark is rejected with zero backend calls. -/
theorem analyzeCommit_invalid_hash_rejected_without_backend_witness :
    isValidCommitHash ("not-a-hash!") = false ∧
    (handleAnalyzeCommit ⟨"./summaries", true⟩ ⟨"not-a-hash!", false, none⟩ "x" "y" true).1
      = HandlerResult.error ("Invalid commit hash format") ∧
    (handleAnalyzeCommit ⟨"./summaries", true⟩ ⟨"not-a-hash!", false, none⟩ "x" "y" true).2
      = ⟨0, 0, 0, []⟩ :=
  ⟨by decide,
    (analyzeCommit_invalid_hash_rejected_without_backend
      ⟨"./summaries", true⟩ ⟨"not-a-hash!", false, none⟩ "x" "y" true rfl (by decide)).1,
    (analyzeCommit_invalid_hash_rejected_without_backend
      ⟨"./summaries", true⟩ ⟨"not-a-hash!", false, none⟩ "x" "y" true rfl (by decide)).2⟩

/-- Claim C9: every successful generate_project_summary run writes
exactly the report at the join of the output directory and the chosen
name with the md extension, where a present outputFile is used
verbatim; the handler succeeds even for a filename that fails
`isValidFilename`, and even when outputFile is absent; by contrast
analyze_commit rejects an invalid outputFile and writes nothing when
no summary is requested. -/
theorem projectSummary_always_writes_unvalidated_filename :
    (∀ (cfg : ServerConfig) (args : SummaryArgs) (repo : Nat) (ts : String) (e : Bool),
        (handleGenerateProjectSummary cfg args repo ts e).1 = HandlerResult.ok →
        (handleGenerateProjectSummary cfg args repo ts e).2.writes =
          [joinPath cfg.outputDirectory (summaryFileName args.outputFile ts ++ ".md")]) ∧
    ((handleGenerateProjectSummary ⟨"./summaries", true⟩ ⟨some 5, some ("../evil")⟩ 10 "t" true).1
        = HandlerResult.ok ∧
      isValidFilename ("../evil") = false ∧
      (handleGenerateProjectSummary ⟨"./summaries", true⟩ ⟨some 5, some ("../evil")⟩ 10 "t" true).2.writes
        = [joinPath ("./summaries") ("../evil" ++ ".md")]) ∧
    (∀ (cfg : ServerConfig) (a : AnalyzeCommitArgs) (sh ts : String) (e : Bool) (f : String),
        a.outputFile = some f → f ≠ "" → isValidFilename f = false →
        (handleAnalyzeCommit cfg a sh ts e).1 ≠ HandlerResult.ok ∧
        (handleAnalyzeCommit cfg a sh ts e).2.writes = []) ∧
    (∀ (cfg : ServerConfig) (a : AnalyzeCommitArgs) (sh ts : String) (e : Bool),
        a.generateSummary = false →
        (handleAnalyzeCommit cfg a sh ts e).2.writes = []) := by
  refine ⟨?_, by decide, ?_, ?_⟩
  · intro cfg args repo ts e hok
    simp only [handleGenerateProjectSummary] at hok ⊢
    split at hok
    next hA => simp at hok
    next hA =>
      split at hok
      next hB => simp at hok
      next hB =>
        split at hok
        next hC => simp at hok
        next hC =>
          have hB' : ¬(args.commitCount.getD 10 = 0 ∨ 1000 < args.commitCount.getD 10) := by
            omega
          simp [hA, hB', hC]
  · intro cfg a sh ts e f hf hne hbadf
    have hfe : f.isEmpty = false := by
      cases hfi : f.isEmpty
      · rfl
      · exact absurd ((String.isEmpty_iff f).mp hfi) hne
    have hval : validAnalyzeParams a = false := by
      simp [validAnalyzeParams, hf, hbadf, hfe]
    by_cases hc : cfg.configured <;>
      simp [handleAnalyzeCommit, hc, hval]
  · intro cfg a sh ts e hg
    by_cases hc : cfg.configured <;> by_cases hv : validAnalyzeParams a <;>
      simp [handleAnalyzeCommit, hc, hv, hg]

/-- Claim C9 witness: a successful run with an absent outputFile writes
the timestamped default report, and analyze_commit run with an invalid
outputFile fails and writes nothing. -/
theorem projectSummary_always_writes_unvalidated_filename_witness :
    (handleGenerateProjectSummary ⟨"./summaries", true⟩ ⟨some 3, none⟩ 5 "t" true).2.writes =
      [joinPath ("./summaries") (summaryFileName none ("t") ++ ".md")] ∧
    (handleAnalyzeCommit ⟨"./summaries", true⟩ ⟨"HEAD", true, some ("../evil")⟩ "x" "y" true).1
      ≠ HandlerResult.ok :=
  ⟨projectSummary_always_writes_unvalidated_filename.1
      ⟨"./summaries", true⟩ ⟨some 3, none⟩ 5 "t" true (by decide),
    (projectSummary_always_writes_unvalidated_filename.2.2.1
      ⟨"./summaries", true⟩ ⟨"HEAD", true, some ("../evil")⟩ "x" "y" true ("../evil")
      rfl (by decide) (by decide)).1⟩

/-- Claim C10: the acceptance predicate of `GitService.getCommitInfo`
is strictly weaker than `isValidCommitHash`: everything the validator
accepts is accepted, every string matching the permissive pattern is
accepted regardless of length (the 101-character token being a
witness the validator rejects), and the invalid-format error is raised
only for strings outside that pattern. -/
theorem getCommitInfo_gate_weaker_than_isValidCommitHash :
    (∀ s : String, isValidCommitHash s = true → getCommitInfoAccepts s = true) ∧
    (∀ s : String, matchesGciRefPattern s = true → getCommitInfoAccepts s = true) ∧
    (∀ s : String, getCommitInfoAccepts s = false → matchesGciRefPattern s = false) ∧
    getCommitInfoAccepts longRefToken = true ∧
    isValidCommitHash longRefToken = false ∧
    100 < longRefToken.data.length := by
  refine ⟨?_, ?_, ?_, by decide, by decide, by decide⟩
  · intro s h; simp [getCommitInfoAccepts, h]
  · intro s h; simp [getCommitInfoAccepts, h]
  · intro s h
    simp only [getCommitInfoAccepts, Bool.or_eq_false_iff] at h
    exact h.2

/-- Claim C10 witness: a slashed branch-like token is accepted by the
gate, and a token with a forbidden character fails the permissive
pattern. -/
theorem getCommitInfo_gate_weaker_than_isValidCommitHash_witness :
    getCommitInfoAccepts ("feature/new") = true ∧
    matchesGciRefPattern ("bad!") = false :=
  ⟨getCommitInfo_gate_weaker_than_isValidCommitHash.2.1 ("feature/new") (by decide),
    getCommitInfo_gate_weaker_than_isValidCommitHash.2.2.1 ("bad!") (by decide)⟩

end GitLogMCP
